import Mathlib

set_option maxRecDepth 100000

/-!
Verification of the audio analysis pipeline of `src/audio_spotify_only.py`
(spotify_rgb).  The Python classes `DynamicsCompressor`, `AGC`,
`AdaptiveSmoother`, `DynamicFloor`, the band-weight construction and the
per-frame onset fusion of `AudioReactiveSpotifyOnly._loop` are embedded as
executable functions over `ℚ` (exact arithmetic in place of Python floats;
mutable attributes become explicit state passing).
-/

/-! ### Dynamics compressor (`DynamicsCompressor`) -/

/-- Parameters of `DynamicsCompressor.__init__`.  Defaults come from
`config.py`: threshold 0.25, ratio 2.5, knee 0.15, makeup 1.4, enabled. -/
structure Compressor where
  threshold : ℚ
  ratio : ℚ
  knee : ℚ
  makeup : ℚ
  enabled : Bool

/-- The piecewise soft-knee curve computed by the body of
`DynamicsCompressor.process` (the value called `compressed` in the source):
identity below `threshold - knee`, full-ratio compression above
`threshold + knee`, quadratic interpolation of the effective ratio inside
the knee. -/
def Compressor.compCurve (p : Compressor) (value : ℚ) : ℚ :=
  let kneeStart := p.threshold - p.knee
  let kneeEnd := p.threshold + p.knee
  if value < kneeStart then
    value
  else if kneeEnd < value then
    p.threshold + (value - p.threshold) / p.ratio
  else
    let kneeRange := kneeEnd - kneeStart
    let kneePos := (value - kneeStart) / kneeRange
    let effectiveRatio := 1 + (p.ratio - 1) * kneePos ^ 2
    kneeStart + (value - kneeStart) / effectiveRatio

/-- `DynamicsCompressor.process`: early return of the input when disabled or
`value <= 0`; otherwise the soft-knee curve followed by makeup gain and the
final `min(1.0, result)` clamp. -/
def Compressor.process (p : Compressor) (value : ℚ) : ℚ :=
  if p.enabled = false ∨ value ≤ 0 then value
  else min 1 (p.compCurve value * p.makeup)

/-- The compressor as configured by `config.py`. -/
def defaultCompressor : Compressor :=
  { threshold := 0.25, ratio := 2.5, knee := 0.15, makeup := 1.4, enabled := true }

/-- Claim C1 counterexample: with the configured parameters, an input
strictly inside the pass-through region (`0 < 0.05 < threshold - knee =
0.1`) is not returned unchanged: `process 0.05 = 0.07` because the makeup
gain 1.4 is applied to the pass-through branch as well. -/
theorem compressor_below_knee_changes_value :
    (0 : ℚ) < 0.05 ∧ (0.05 : ℚ) < defaultCompressor.threshold - defaultCompressor.knee ∧
      defaultCompressor.process 0.05 ≠ 0.05 := by
  refine ⟨by norm_num, by norm_num [defaultCompressor], ?_⟩
  norm_num [Compressor.process, Compressor.compCurve, defaultCompressor]

/-- Claim C1 (amended): with the compressor enabled, for `0 < value <
threshold - knee` the soft-knee curve leaves the value unchanged, so
`process value = min 1 (value * makeup)`; it equals `value` itself exactly
when the makeup gain is 1. -/
theorem compressor_below_knee (p : Compressor) (hen : p.enabled = true) (value : ℚ)
    (h0 : 0 < value) (h1 : value < p.threshold - p.knee) :
    p.process value = min 1 (value * p.makeup) := by
  unfold Compressor.process Compressor.compCurve
  rw [if_neg, if_pos h1]
  simp [hen, not_le.mpr h0]

/-- Witness for `compressor_below_knee` at the configured parameters. -/
theorem compressor_below_knee_witness :
    defaultCompressor.process 0.05 = min 1 ((0.05 : ℚ) * defaultCompressor.makeup) :=
  compressor_below_knee defaultCompressor rfl 0.05 (by norm_num)
    (by norm_num [defaultCompressor])

/-- Claim C10: every input `value ≤ 0` is returned completely unchanged by
`process` — the `value <= 0` early return fires before makeup gain or
clamping, for any parameters. -/
theorem compressor_nonpos_identity (p : Compressor) (value : ℚ) (h : value ≤ 0) :
    p.process value = value := by
  unfold Compressor.process
  rw [if_pos (Or.inr h)]

/-- Witness for `compressor_nonpos_identity`: a negative input is returned
negative, not clamped into `[0, 1]`. -/
theorem compressor_nonpos_identity_witness :
    defaultCompressor.process (-1/2) = -1/2 :=
  compressor_nonpos_identity defaultCompressor (-1/2) (by norm_num)

/-- Claim C2 counterexample: with the configured parameters (ratio 2.5) the
compressor is not monotone: `0.355 < 0.385` inside the knee but
`process 0.385 < process 0.355` — the quadratic effective-ratio
interpolation decreases on the upper part of the knee whenever `ratio > 2`. -/
theorem compressor_not_monotone :
    (71/200 : ℚ) < 77/200 ∧
      defaultCompressor.process (77/200) < defaultCompressor.process (71/200) := by
  constructor
  · norm_num
  · norm_num [Compressor.process, Compressor.compCurve, defaultCompressor]

/-- Core algebraic fact behind the soft knee: `u ↦ u / (1 + c·u²)` is
non-decreasing on `[0, 1]` as long as `0 ≤ c ≤ 1` (i.e. `1 ≤ ratio ≤ 2`). -/
lemma kneeShape_mono (c u v : ℚ) (hc0 : 0 ≤ c) (hc1 : c ≤ 1)
    (hu0 : 0 ≤ u) (huv : u ≤ v) (hv1 : v ≤ 1) :
    u / (1 + c * u ^ 2) ≤ v / (1 + c * v ^ 2) := by
  have d1 : 0 < 1 + c * u ^ 2 := by positivity
  have d2 : 0 < 1 + c * v ^ 2 := by positivity
  rw [div_le_div_iff d1 d2]
  have hv0 : 0 ≤ v := le_trans hu0 huv
  have key : 0 ≤ (v - u) * (1 - c * u * v) := by
    apply mul_nonneg (by linarith)
    nlinarith [mul_nonneg hu0 hv0]
  nlinarith [key]

/-- Branch lemma: below the knee the curve is the identity. -/
lemma compCurve_of_low (p : Compressor) (value : ℚ) (h : value < p.threshold - p.knee) :
    p.compCurve value = value := by
  unfold Compressor.compCurve
  rw [if_pos h]

/-- Branch lemma: above the knee the curve is hard compression. -/
lemma compCurve_of_high (p : Compressor) (value : ℚ) (hk : 0 ≤ p.knee)
    (h : p.threshold + p.knee < value) :
    p.compCurve value = p.threshold + (value - p.threshold) / p.ratio := by
  unfold Compressor.compCurve
  rw [if_neg (show ¬ value < p.threshold - p.knee by linarith), if_pos h]

/-- Branch lemma: inside the knee the curve adds the quadratically
interpolated compression of the excess over the knee start. -/
lemma compCurve_of_knee (p : Compressor) (value : ℚ)
    (h1 : ¬ value < p.threshold - p.knee) (h2 : ¬ p.threshold + p.knee < value) :
    p.compCurve value = (p.threshold - p.knee) +
      (value - (p.threshold - p.knee)) /
        (1 + (p.ratio - 1) * ((value - (p.threshold - p.knee)) / (2 * p.knee)) ^ 2) := by
  unfold Compressor.compCurve
  rw [if_neg h1, if_neg h2]
  have h : p.threshold + p.knee - (p.threshold - p.knee) = 2 * p.knee := by ring
  rw [h]

/-- The knee branch rewritten through the normalized knee position
`u = (value - kneeStart) / (2·knee)`. -/
lemma compCurve_knee_shape (p : Compressor) (value : ℚ) (hk : 0 < p.knee)
    (h1 : ¬ value < p.threshold - p.knee) (h2 : ¬ p.threshold + p.knee < value) :
    p.compCurve value = (p.threshold - p.knee) + (2 * p.knee) *
      (((value - (p.threshold - p.knee)) / (2 * p.knee)) /
        (1 + (p.ratio - 1) * ((value - (p.threshold - p.knee)) / (2 * p.knee)) ^ 2)) := by
  rw [compCurve_of_knee p value h1 h2]
  have hk2 : (2 * p.knee) ≠ 0 := by positivity
  congr 1
  rw [mul_div_assoc']
  congr 1
  field_simp

/-- The curve is non-negative on positive inputs (given sane parameters). -/
lemma compCurve_nonneg (p : Compressor) (hk : 0 < p.knee) (hkt : p.knee ≤ p.threshold)
    (hr1 : 1 ≤ p.ratio) (value : ℚ) (hv : 0 < value) : 0 ≤ p.compCurve value := by
  have hr0 : (0 : ℚ) < p.ratio := by linarith
  by_cases hlo : value < p.threshold - p.knee
  · rw [compCurve_of_low p value hlo]; linarith
  by_cases hhi : p.threshold + p.knee < value
  · rw [compCurve_of_high p value (by linarith) hhi]
    have : 0 ≤ (value - p.threshold) / p.ratio := div_nonneg (by linarith) (le_of_lt hr0)
    linarith
  · rw [compCurve_of_knee p value hlo hhi]
    have hden : 0 < 1 + (p.ratio - 1) *
        ((value - (p.threshold - p.knee)) / (2 * p.knee)) ^ 2 := by
      have := sq_nonneg ((value - (p.threshold - p.knee)) / (2 * p.knee))
      nlinarith
    have : 0 ≤ (value - (p.threshold - p.knee)) / (1 + (p.ratio - 1) *
        ((value - (p.threshold - p.knee)) / (2 * p.knee)) ^ 2) :=
      div_nonneg (by linarith) (le_of_lt hden)
    linarith

/-- Evaluation of `process` on positive inputs with the compressor enabled. -/
lemma Compressor.process_of_pos (p : Compressor) (hen : p.enabled = true) (value : ℚ)
    (hv : 0 < value) : p.process value = min 1 (p.compCurve value * p.makeup) := by
  unfold Compressor.process
  rw [if_neg (by simp [hen, not_le.mpr hv])]

/-- Monotonicity of the soft-knee curve on positive inputs, for
`1 ≤ ratio ≤ 2` (the quadratic knee interpolation is non-monotone when
`ratio > 2`). -/
lemma compCurve_mono (p : Compressor) (hk : 0 < p.knee) (hkt : p.knee ≤ p.threshold)
    (hr1 : 1 ≤ p.ratio) (hr2 : p.ratio ≤ 2) (a b : ℚ) (ha : 0 < a) (hab : a ≤ b) :
    p.compCurve a ≤ p.compCurve b := by
  have hr0 : (0 : ℚ) < p.ratio := by linarith
  have hc0 : (0 : ℚ) ≤ p.ratio - 1 := by linarith
  have hc1 : p.ratio - 1 ≤ 1 := by linarith
  have h2k : (0 : ℚ) < 2 * p.knee := by linarith
  have hone : (1 : ℚ) / (1 + (p.ratio - 1) * 1 ^ 2) = 1 / p.ratio := by
    norm_num
  by_cases hb1 : b < p.threshold - p.knee
  · have ha1 : a < p.threshold - p.knee := lt_of_le_of_lt hab hb1
    rw [compCurve_of_low p a ha1, compCurve_of_low p b hb1]
    exact hab
  by_cases hb2 : p.threshold + p.knee < b
  · -- b is in the hard-compression region
    rw [compCurve_of_high p b (by linarith) hb2]
    have hbK : p.knee / p.ratio ≤ (b - p.threshold) / p.ratio :=
      (div_le_div_right hr0).mpr (by linarith)
    have hKr : p.knee / p.ratio ≤ p.knee := div_le_self (by linarith) hr1
    by_cases ha1 : a < p.threshold - p.knee
    · rw [compCurve_of_low p a ha1]
      have h0 : 0 ≤ p.knee / p.ratio := div_nonneg (by linarith) (le_of_lt hr0)
      linarith
    by_cases ha2 : p.threshold + p.knee < a
    · rw [compCurve_of_high p a (by linarith) ha2]
      have : (a - p.threshold) / p.ratio ≤ (b - p.threshold) / p.ratio :=
        (div_le_div_right hr0).mpr (by linarith)
      linarith
    · -- a inside the knee, b above it
      rw [compCurve_knee_shape p a hk ha1 ha2]
      set u := (a - (p.threshold - p.knee)) / (2 * p.knee) with hu
      have hu0 : 0 ≤ u := div_nonneg (by linarith [not_lt.mp ha1]) (le_of_lt h2k)
      have hu1 : u ≤ 1 := by
        rw [hu, div_le_one h2k]
        linarith [not_lt.mp ha2]
      have hshape := kneeShape_mono (p.ratio - 1) u 1 hc0 hc1 hu0 hu1 le_rfl
      rw [hone] at hshape
      have hmul : (2 * p.knee) * (u / (1 + (p.ratio - 1) * u ^ 2)) ≤
          (2 * p.knee) * (1 / p.ratio) :=
        mul_le_mul_of_nonneg_left hshape (le_of_lt h2k)
      have h2kr : (2 * p.knee) * (1 / p.ratio) = 2 * (p.knee / p.ratio) := by
        ring
      linarith [hmul, hbK, hKr, h2kr]
  · -- b inside the knee
    rw [compCurve_knee_shape p b hk hb1 hb2]
    set v := (b - (p.threshold - p.knee)) / (2 * p.knee) with hv
    have hv0 : 0 ≤ v := div_nonneg (by linarith [not_lt.mp hb1]) (le_of_lt h2k)
    have hv1 : v ≤ 1 := by
      rw [hv, div_le_one h2k]
      linarith [not_lt.mp hb2]
    by_cases ha1 : a < p.threshold - p.knee
    · rw [compCurve_of_low p a ha1]
      have hg : 0 ≤ v / (1 + (p.ratio - 1) * v ^ 2) := by
        apply div_nonneg hv0
        nlinarith [sq_nonneg v]
      linarith [mul_nonneg (le_of_lt h2k) hg]
    · -- both inside the knee
      have ha2 : ¬ p.threshold + p.knee < a := by
        push_neg at hb2 ⊢
        linarith
      rw [compCurve_knee_shape p a hk ha1 ha2]
      set u := (a - (p.threshold - p.knee)) / (2 * p.knee) with hu
      have hu0 : 0 ≤ u := div_nonneg (by linarith [not_lt.mp ha1]) (le_of_lt h2k)
      have huv : u ≤ v := by
        rw [hu, hv]
        exact (div_le_div_right h2k).mpr (by linarith)
      have hshape := kneeShape_mono (p.ratio - 1) u v hc0 hc1 hu0 huv hv1
      have hmul := mul_le_mul_of_nonneg_left hshape (le_of_lt h2k)
      linarith [hmul]

/-- Claim C2 (amended): the enabled compressor is monotone non-decreasing
for all inputs `a < b` provided `1 ≤ ratio ≤ 2` (plus `0 < knee ≤
threshold` and `makeup ≥ 0`); the configured ratio 2.5 violates this inside
the knee. -/
theorem compressor_monotone (p : Compressor) (hen : p.enabled = true)
    (hk : 0 < p.knee) (hkt : p.knee ≤ p.threshold) (hr1 : 1 ≤ p.ratio) (hr2 : p.ratio ≤ 2)
    (hm : 0 ≤ p.makeup) (a b : ℚ) (hab : a < b) :
    p.process a ≤ p.process b := by
  by_cases hb : b ≤ 0
  · rw [compressor_nonpos_identity p a (by linarith), compressor_nonpos_identity p b hb]
    exact le_of_lt hab
  · push_neg at hb
    rw [p.process_of_pos hen b hb]
    by_cases ha : a ≤ 0
    · rw [compressor_nonpos_identity p a ha]
      have h1 : 0 ≤ p.compCurve b * p.makeup :=
        mul_nonneg (compCurve_nonneg p hk hkt hr1 b hb) hm
      exact le_trans ha (le_min (by norm_num) h1)
    · push_neg at ha
      rw [p.process_of_pos hen a ha]
      exact min_le_min le_rfl
        (mul_le_mul_of_nonneg_right (compCurve_mono p hk hkt hr1 hr2 a b ha (le_of_lt hab)) hm)

/-- Witness for `compressor_monotone` at ratio 2 (the configured parameters
otherwise), inputs 0.2 and 0.3. -/
theorem compressor_monotone_witness :
    (Compressor.mk 0.25 2 0.15 1.4 true).process 0.2 ≤
      (Compressor.mk 0.25 2 0.15 1.4 true).process 0.3 :=
  compressor_monotone (Compressor.mk 0.25 2 0.15 1.4 true) rfl (by norm_num) (by norm_num)
    (by norm_num) (by norm_num) (by norm_num) 0.2 0.3 (by norm_num)

/-! ### Automatic gain control (`AGC`) -/

/-- Parameters of `AGC.__init__` (defaults from `config.py`). -/
structure AGCParams where
  enabled : Bool
  max_gain : ℚ
  min_gain : ℚ
  attack : ℚ
  release : ℚ
  target : ℚ

/-- Mutable state of an `AGC` instance: the current gain and the
`deque(maxlen=100)` energy history. -/
structure AGCState where
  gain : ℚ
  hist : List ℚ

/-- `AGC.__init__` state: gain 1.0, empty history. -/
def initAGCState : AGCState := { gain := 1, hist := [] }

/-- Appending to a `deque(maxlen=n)`: the oldest entries are dropped once
the length exceeds `n`. -/
def dequeAppend (n : ℕ) (h : List ℚ) (e : ℚ) : List ℚ :=
  let h2 := h ++ [e]
  if n < h2.length then h2.drop (h2.length - n) else h2

/-- `AGC.process`: returns the new state (the returned energy
`energy * gain` is not needed by the invariant claim and is recovered from
the state).  Mirrors the source: early return when disabled, history
accumulation, no gain change while fewer than 10 samples, ideal gain
`target / avg` (or `max_gain` for near-zero average), clamping into
`[min_gain, max_gain]`, then the asymmetric attack/release smoothing. -/
def AGCParams.process (p : AGCParams) (s : AGCState) (energy : ℚ) : AGCState :=
  if p.enabled = false then s
  else
    let h := dequeAppend 100 s.hist energy
    if h.length < 10 then { gain := s.gain, hist := h }
    else
      let avgEnergy := h.sum / (h.length : ℚ)
      let idealGain := if 0.001 < avgEnergy then p.target / avgEnergy else p.max_gain
      let idealClamped := max p.min_gain (min p.max_gain idealGain)
      let newGain :=
        if s.gain < idealClamped then s.gain + (idealClamped - s.gain) * p.release
        else s.gain + (idealClamped - s.gain) * p.attack
      { gain := newGain, hist := h }

/-- Folding `AGC.process` over a finite sequence of energies. -/
def AGCParams.run (p : AGCParams) (s : AGCState) (es : List ℚ) : AGCState :=
  es.foldl p.process s

/-- The AGC as configured by `config.py`. -/
def defaultAGC : AGCParams :=
  { enabled := true, max_gain := 3.5, min_gain := 0.8, attack := 0.03,
    release := 0.01, target := 0.35 }

/-- One `process` call keeps the gain inside `[min_gain, max_gain]`. -/
lemma agc_process_gain_bounds (p : AGCParams) (hmm : p.min_gain ≤ p.max_gain)
    (ha0 : 0 ≤ p.attack) (ha1 : p.attack ≤ 1) (hr0 : 0 ≤ p.release) (hr1 : p.release ≤ 1)
    (s : AGCState) (hg1 : p.min_gain ≤ s.gain) (hg2 : s.gain ≤ p.max_gain) (e : ℚ) :
    p.min_gain ≤ (p.process s e).gain ∧ (p.process s e).gain ≤ p.max_gain := by
  unfold AGCParams.process
  by_cases hen : p.enabled = false
  · rw [if_pos hen]
    exact ⟨hg1, hg2⟩
  · rw [if_neg hen]
    set h := dequeAppend 100 s.hist e with hh
    by_cases hlen : h.length < 10
    · rw [if_pos hlen]
      exact ⟨hg1, hg2⟩
    · rw [if_neg hlen]
      simp only
      set ideal := if 0.001 < h.sum / (h.length : ℚ) then p.target / (h.sum / (h.length : ℚ))
        else p.max_gain with hideal
      set ic := max p.min_gain (min p.max_gain ideal) with hic
      have hic1 : p.min_gain ≤ ic := le_max_left _ _
      have hic2 : ic ≤ p.max_gain := max_le hmm (min_le_left _ _)
      by_cases hcmp : s.gain < ic
      · rw [if_pos hcmp]
        constructor
        · nlinarith
        · nlinarith
      · rw [if_neg hcmp]
        push_neg at hcmp
        constructor
        · nlinarith
        · nlinarith

/-- Claim C3: starting from the initial state (gain 1), after any finite
sequence of `process` calls the gain stays inside
`[min_gain, max_gain]`, provided `min_gain ≤ 1 ≤ max_gain` (as configured)
and the attack and release rates lie in `[0, 1]`. -/
theorem agc_gain_bounded (p : AGCParams) (h1 : p.min_gain ≤ 1) (h2 : 1 ≤ p.max_gain)
    (ha0 : 0 ≤ p.attack) (ha1 : p.attack ≤ 1) (hr0 : 0 ≤ p.release) (hr1 : p.release ≤ 1)
    (es : List ℚ) :
    p.min_gain ≤ (p.run initAGCState es).gain ∧ (p.run initAGCState es).gain ≤ p.max_gain := by
  have hmm : p.min_gain ≤ p.max_gain := le_trans h1 h2
  suffices H : ∀ (s : AGCState), p.min_gain ≤ s.gain → s.gain ≤ p.max_gain →
      p.min_gain ≤ (p.run s es).gain ∧ (p.run s es).gain ≤ p.max_gain by
    exact H initAGCState h1 h2
  induction es with
  | nil => intro s hs1 hs2; exact ⟨hs1, hs2⟩
  | cons e es ih =>
    intro s hs1 hs2
    have hstep := agc_process_gain_bounds p hmm ha0 ha1 hr0 hr1 s hs1 hs2 e
    exact ih (p.process s e) hstep.1 hstep.2

/-- Witness for `agc_gain_bounded`: the configured AGC over a concrete
12-frame energy sequence. -/
theorem agc_gain_bounded_witness :
    defaultAGC.min_gain ≤ (defaultAGC.run initAGCState
        [1, 2, 3, 4, 5, 6, 7, 8, 9, 10, 11, 12]).gain ∧
      (defaultAGC.run initAGCState [1, 2, 3, 4, 5, 6, 7, 8, 9, 10, 11, 12]).gain ≤
        defaultAGC.max_gain :=
  agc_gain_bounded defaultAGC (by norm_num [defaultAGC]) (by norm_num [defaultAGC])
    (by norm_num [defaultAGC]) (by norm_num [defaultAGC]) (by norm_num [defaultAGC])
    (by norm_num [defaultAGC]) [1, 2, 3, 4, 5, 6, 7, 8, 9, 10, 11, 12]

/-! ### Adaptive smoother (`AdaptiveSmoother`) -/

/-- Parameters of `AdaptiveSmoother.__init__` (attack/decay from
`BAND_ATTACK`/`BAND_DECAY`, the adaptive settings from `config.py`). -/
structure Smoother where
  base_attack : ℚ
  base_decay : ℚ
  adaptive : Bool
  low_vol_mult : ℚ
  low_vol_thresh : ℚ

/-- `AdaptiveSmoother.update`: the volume-adaptive decay rate followed by
asymmetric exponential smoothing.  The mutable `self.value` is the explicit
`value` argument; the result is the new smoothed value. -/
def Smoother.update (p : Smoother) (value target volume : ℚ) : ℚ :=
  let decay :=
    if p.adaptive = true ∧ volume < p.low_vol_thresh then
      let volFactor := volume / p.low_vol_thresh
      let decayMult := 1 + (p.low_vol_mult - 1) * (1 - volFactor)
      p.base_decay / decayMult
    else p.base_decay
  if value < target then value + (target - value) * p.base_attack
  else value + (target - value) * decay

/-- A band smoother as configured by `config.py`
(`BAND_ATTACK = 0.45`, `BAND_DECAY = 0.08`). -/
def defaultSmoother : Smoother :=
  { base_attack := 0.45, base_decay := 0.08, adaptive := true,
    low_vol_mult := 2.5, low_vol_thresh := 0.35 }

/-- The effective decay rate stays inside `[0, base_decay]`: the adaptive
multiplier `1 + (low_vol_mult - 1)(1 - volume/low_vol_thresh)` is at least 1
whenever `low_vol_mult ≥ 1` and the low-volume branch is taken. -/
lemma smoother_decay_bounds (p : Smoother) (hd0 : 0 ≤ p.base_decay)
    (hm : 1 ≤ p.low_vol_mult) (ht : 0 < p.low_vol_thresh) (volume : ℚ)
    (hcond : p.adaptive = true ∧ volume < p.low_vol_thresh) :
    0 ≤ p.base_decay / (1 + (p.low_vol_mult - 1) * (1 - volume / p.low_vol_thresh)) ∧
      p.base_decay / (1 + (p.low_vol_mult - 1) * (1 - volume / p.low_vol_thresh)) ≤
        p.base_decay := by
  have hvf : volume / p.low_vol_thresh < 1 := (div_lt_one ht).mpr hcond.2
  have hmult : 1 ≤ 1 + (p.low_vol_mult - 1) * (1 - volume / p.low_vol_thresh) := by
    nlinarith
  exact ⟨div_nonneg hd0 (by linarith), div_le_self hd0 hmult⟩

/-- Claim C7: the smoothed value never overshoots — for every current
value, target and volume, `update` returns a value between the current
value and the target (inclusive), provided the attack and decay rates lie
in `[0, 1]`, `low_vol_mult ≥ 1` and `low_vol_thresh > 0` (all true of the
configuration). -/
theorem smoother_no_overshoot (p : Smoother) (ha0 : 0 ≤ p.base_attack)
    (ha1 : p.base_attack ≤ 1) (hd0 : 0 ≤ p.base_decay) (hd1 : p.base_decay ≤ 1)
    (hm : 1 ≤ p.low_vol_mult) (ht : 0 < p.low_vol_thresh) (value target volume : ℚ) :
    min value target ≤ p.update value target volume ∧
      p.update value target volume ≤ max value target := by
  unfold Smoother.update
  by_cases hvt : value < target
  · rw [if_pos hvt]
    constructor
    · have : min value target = value := min_eq_left (le_of_lt hvt)
      nlinarith
    · have : max value target = target := max_eq_right (le_of_lt hvt)
      nlinarith
  · rw [if_neg hvt]
    push_neg at hvt
    have hmin : min value target = target := min_eq_right hvt
    have hmax : max value target = value := max_eq_left hvt
    by_cases hcond : p.adaptive = true ∧ volume < p.low_vol_thresh
    · rw [if_pos hcond]
      simp only
      have hdec := smoother_decay_bounds p hd0 hm ht volume hcond
      constructor
      · rw [hmin]
        nlinarith [hdec.1, hdec.2]
      · rw [hmax]
        nlinarith [hdec.1, hdec.2]
    · rw [if_neg hcond]
      constructor
      · rw [hmin]
        nlinarith
      · rw [hmax]
        nlinarith

/-- Witness for `smoother_no_overshoot`: the configured smoother at a
low-volume decay step from 0.5 toward 0.2. -/
theorem smoother_no_overshoot_witness :
    min (0.5 : ℚ) 0.2 ≤ defaultSmoother.update 0.5 0.2 0.1 ∧
      defaultSmoother.update 0.5 0.2 0.1 ≤ max (0.5 : ℚ) 0.2 :=
  smoother_no_overshoot defaultSmoother (by norm_num [defaultSmoother])
    (by norm_num [defaultSmoother]) (by norm_num [defaultSmoother])
    (by norm_num [defaultSmoother]) (by norm_num [defaultSmoother])
    (by norm_num [defaultSmoother]) 0.5 0.2 0.1

/-! ### Dynamic floor (`DynamicFloor`) -/

/-- Parameters of `DynamicFloor.__init__` (defaults from `config.py`:
enabled, max 0.15, threshold 0.30). -/
structure Floor where
  enabled : Bool
  max_floor : ℚ
  thresh : ℚ

/-- `DynamicFloor.get_floor`: returns the floor value together with the
new internal `_current_floor` (the source mutates the attribute and returns
it; when disabled it returns 0 without touching the state). -/
def Floor.getFloor (p : Floor) (current volume : ℚ) : ℚ × ℚ :=
  if p.enabled = false then (0, current)
  else
    let targetFloor := if p.thresh ≤ volume then 0 else p.max_floor * (1 - volume / p.thresh)
    let c2 := current + (targetFloor - current) * 0.1
    (c2, c2)

/-- `DynamicFloor.apply`: result value and new internal floor state.  Below
the (freshly smoothed) floor the value is blended as
`floor*0.7 + value*0.3`; otherwise returned unchanged. -/
def Floor.apply (p : Floor) (current value volume : ℚ) : ℚ × ℚ :=
  let fc := p.getFloor current volume
  if value < fc.1 then (fc.1 * 0.7 + value * 0.3, fc.2) else (value, fc.2)

/-- The dynamic floor as configured by `config.py`. -/
def defaultFloor : Floor := { enabled := true, max_floor := 0.15, thresh := 0.30 }

/-- Claim C4 counterexample: at volume 0.3 (equal to the activation
threshold, so `volume >= threshold` holds) with internal floor state 0.1
left over from earlier quiet frames, `apply 0 0.3` returns 0.063, not the
input 0 — the smoothed internal floor keeps lifting values for a while
after the volume rises. -/
theorem floor_apply_high_volume_not_noop :
    defaultFloor.thresh ≤ 0.3 ∧ (defaultFloor.apply 0.1 0 0.3).1 ≠ 0 := by
  constructor
  · norm_num [defaultFloor]
  · norm_num [Floor.apply, Floor.getFloor, defaultFloor]

/-- Claim C4 (amended): for `volume ≥ threshold` the target floor is 0 and
the smoothed floor becomes `0.9 × current`; `apply value volume` returns
`value` unchanged exactly when `0.9 × current ≤ value` — in particular from
the initial state (`current = 0`) for every non-negative value, but not
from an arbitrary prior internal state. -/
theorem floor_apply_high_volume (p : Floor) (hen : p.enabled = true)
    (current value volume : ℚ) (hvol : p.thresh ≤ volume)
    (hcv : current * 0.9 ≤ value) :
    (p.apply current value volume).1 = value := by
  have hneg : ¬ value < current + (0 - current) * 0.1 := by
    push_neg
    nlinarith
  simp only [Floor.apply, Floor.getFloor, if_neg (show ¬p.enabled = false by simp [hen]),
    if_pos hvol, if_neg hneg]

/-- Witness for `floor_apply_high_volume`: the configured floor with
internal state 0.1, input value 0.5, volume 0.4. -/
theorem floor_apply_high_volume_witness :
    (defaultFloor.apply 0.1 0.5 0.4).1 = 0.5 :=
  floor_apply_high_volume defaultFloor rfl 0.1 0.5 0.4 (by norm_num [defaultFloor])
    (by norm_num)

/-- Folding the state update of `get_floor` over a sequence of volumes. -/
def Floor.runFloor (p : Floor) (current : ℚ) (vols : List ℚ) : ℚ :=
  vols.foldl (fun c v => (p.getFloor c v).2) current

/-- One `get_floor` call keeps the internal floor inside `[0, max_floor]`
and returns a value inside `[0, max_floor]`. -/
lemma floor_step_bounds (p : Floor) (hM : 0 ≤ p.max_floor) (current volume : ℚ)
    (hc0 : 0 ≤ current) (hc1 : current ≤ p.max_floor) (hv0 : 0 ≤ volume) :
    (0 ≤ (p.getFloor current volume).1 ∧ (p.getFloor current volume).1 ≤ p.max_floor) ∧
      (0 ≤ (p.getFloor current volume).2 ∧ (p.getFloor current volume).2 ≤ p.max_floor) := by
  unfold Floor.getFloor
  by_cases hen : p.enabled = false
  · rw [if_pos hen]
    exact ⟨⟨le_rfl, hM⟩, hc0, hc1⟩
  · rw [if_neg hen]
    simp only
    have htgt : 0 ≤ (if p.thresh ≤ volume then 0 else p.max_floor * (1 - volume / p.thresh)) ∧
        (if p.thresh ≤ volume then 0 else p.max_floor * (1 - volume / p.thresh)) ≤
          p.max_floor := by
      by_cases hth : p.thresh ≤ volume
      · rw [if_pos hth]
        exact ⟨le_rfl, hM⟩
      · rw [if_neg hth]
        push_neg at hth
        have hthp : 0 < p.thresh := lt_of_le_of_lt hv0 hth
        have hvf0 : 0 ≤ volume / p.thresh := div_nonneg hv0 (le_of_lt hthp)
        have hvf1 : volume / p.thresh < 1 := (div_lt_one hthp).mpr hth
        constructor
        · nlinarith
        · nlinarith
      
    constructor
    · constructor
      · nlinarith [htgt.1, htgt.2]
      · nlinarith [htgt.1, htgt.2]
    · constructor
      · nlinarith [htgt.1, htgt.2]
      · nlinarith [htgt.1, htgt.2]

/-- Claim C9: with `max_floor ≥ 0`, starting from the initial internal
floor 0, after any finite sequence of `get_floor` calls with volumes in
`[0, 1]` the internal smoothed floor stays in `[0, max_floor]`, and the
floor returned for any further volume in `[0, 1]` also lies in
`[0, max_floor]`. -/
theorem floor_state_bounded (p : Floor) (hM : 0 ≤ p.max_floor) (vols : List ℚ)
    (hvols : ∀ v ∈ vols, 0 ≤ v ∧ v ≤ 1) :
    (0 ≤ p.runFloor 0 vols ∧ p.runFloor 0 vols ≤ p.max_floor) ∧
      ∀ w : ℚ, 0 ≤ w → w ≤ 1 →
        0 ≤ (p.getFloor (p.runFloor 0 vols) w).1 ∧
          (p.getFloor (p.runFloor 0 vols) w).1 ≤ p.max_floor := by
  have hrun : ∀ (c : ℚ), 0 ≤ c → c ≤ p.max_floor →
      0 ≤ p.runFloor c vols ∧ p.runFloor c vols ≤ p.max_floor := by
    unfold Floor.runFloor
    induction vols with
    | nil => intro c h0 h1; exact ⟨h0, h1⟩
    | cons v vs ih =>
      intro c h0 h1
      have hv := hvols v (List.mem_cons_self v vs)
      have hstep := floor_step_bounds p hM c v h0 h1 hv.1
      exact ih (fun u hu => hvols u (List.mem_cons_of_mem v hu)) _ hstep.2.1 hstep.2.2
  have hfin := hrun 0 le_rfl hM
  refine ⟨hfin, fun w hw0 hw1 => ?_⟩
  exact (floor_step_bounds p hM _ w hfin.1 hfin.2 hw0).1

/-- Witness for `floor_state_bounded`: the configured floor over the volume
sequence `[0.1, 0.5, 0.05]`, then queried at volume 0.2. -/
theorem floor_state_bounded_witness :
    ((0 : ℚ) ≤ defaultFloor.runFloor 0 [0.1, 0.5, 0.05] ∧
        defaultFloor.runFloor 0 [0.1, 0.5, 0.05] ≤ defaultFloor.max_floor) ∧
      (0 ≤ (defaultFloor.getFloor (defaultFloor.runFloor 0 [0.1, 0.5, 0.05]) 0.2).1 ∧
        (defaultFloor.getFloor (defaultFloor.runFloor 0 [0.1, 0.5, 0.05]) 0.2).1 ≤
          defaultFloor.max_floor) := by
  have h := floor_state_bounded defaultFloor (by norm_num [defaultFloor]) [0.1, 0.5, 0.05]
    (by norm_num)
  exact ⟨h.1, h.2 0.2 (by norm_num) (by norm_num)⟩

/-! ### Silence decay in the main loop (`AudioReactiveSpotifyOnly._loop`) -/

/-- The published band/beat values touched by the two near-silence branches
of the main loop (Spotify meter below 0.01, or frame RMS below 0.003). -/
structure BandSnapshot where
  bass : ℚ
  melody : ℚ
  percussion : ℚ
  beat_intensity : ℚ

/-- One silent frame: both silence branches multiply the published values
by fixed decay factors (`*= 0.85` for the three bands, `*= 0.80` for
`beat_intensity`) and `continue` without running the rest of the pipeline —
in particular without the hard-zero clamp that only the non-silent beat
path contains. -/
def silentStep (s : BandSnapshot) : BandSnapshot :=
  { bass := s.bass * 0.85, melody := s.melody * 0.85,
    percussion := s.percussion * 0.85, beat_intensity := s.beat_intensity * 0.80 }

/-- `n` consecutive silent frames. -/
def silentRun (s : BandSnapshot) : ℕ → BandSnapshot
  | 0 => s
  | n + 1 => silentStep (silentRun s n)

/-- Closed form of the geometric decay under silent frames. -/
lemma silentRun_eq (s : BandSnapshot) (n : ℕ) :
    silentRun s n = ⟨s.bass * 0.85 ^ n, s.melody * 0.85 ^ n,
      s.percussion * 0.85 ^ n, s.beat_intensity * 0.80 ^ n⟩ := by
  induction n with
  | zero => simp [silentRun]
  | succ n ih =>
    rw [silentRun, ih]
    unfold silentStep
    simp only [BandSnapshot.mk.injEq]
    refine ⟨by ring, by ring, by ring, by ring⟩

/-- Claim C5 counterexample: starting from published values 1, no number of
silent frames makes `bass` exactly 0 — the decay is a strictly positive
geometric sequence (`0.85^n`), so "reaches exactly 0 within a bounded
number of frames" is false; only the float underflow of the real
implementation would ever produce an exact 0. -/
theorem silence_never_exactly_zero :
    ¬ ∃ N : ℕ, ∀ n : ℕ, N ≤ n → (silentRun ⟨1, 1, 1, 1⟩ n).bass = 0 := by
  rintro ⟨N, hN⟩
  have h := hN N le_rfl
  rw [silentRun_eq] at h
  simp only at h
  rw [one_mul] at h
  exact pow_ne_zero N (by norm_num : (0.85 : ℚ) ≠ 0) h

/-- Claim C5 (amended): from any non-negative published values, under
repeated silent frames `bass`, `melody`, `percussion` and `beat_intensity`
are each non-increasing frame-over-frame, and each eventually stays below
any positive tolerance — but (per the counterexample) never exactly 0 from
a positive start. -/
theorem silence_decay (s : BandSnapshot) (hb : 0 ≤ s.bass) (hm : 0 ≤ s.melody)
    (hp : 0 ≤ s.percussion) (hi : 0 ≤ s.beat_intensity) :
    (∀ n : ℕ,
      (silentRun s (n + 1)).bass ≤ (silentRun s n).bass ∧
      (silentRun s (n + 1)).melody ≤ (silentRun s n).melody ∧
      (silentRun s (n + 1)).percussion ≤ (silentRun s n).percussion ∧
      (silentRun s (n + 1)).beat_intensity ≤ (silentRun s n).beat_intensity) ∧
    ∀ ε : ℚ, 0 < ε → ∃ N : ℕ, ∀ n : ℕ, N ≤ n →
      (silentRun s n).bass ≤ ε ∧ (silentRun s n).melody ≤ ε ∧
      (silentRun s n).percussion ≤ ε ∧ (silentRun s n).beat_intensity ≤ ε := by
  have h85 : (0 : ℚ) ≤ 0.85 := by norm_num
  have h80 : (0 : ℚ) ≤ 0.80 := by norm_num
  constructor
  · intro n
    rw [silentRun_eq s n, silentRun_eq s (n + 1)]
    simp only
    have hb5 : (0 : ℚ) ≤ s.bass * 0.85 ^ n := by positivity
    have hm5 : (0 : ℚ) ≤ s.melody * 0.85 ^ n := by positivity
    have hp5 : (0 : ℚ) ≤ s.percussion * 0.85 ^ n := by positivity
    have hi5 : (0 : ℚ) ≤ s.beat_intensity * 0.80 ^ n := by positivity
    refine ⟨?_, ?_, ?_, ?_⟩ <;>
      · rw [pow_succ]
        nlinarith
  · intro ε hε
    set m := max (max s.bass s.melody) (max s.percussion s.beat_intensity) with hmdef
    have hm0 : 0 ≤ m := le_trans hb (le_trans (le_max_left _ _) (le_max_left _ _))
    have hm1 : 0 < m + 1 := by linarith
    obtain ⟨N, hN⟩ := exists_pow_lt_of_lt_one (div_pos hε hm1)
      (by norm_num : (0.85 : ℚ) < 1)
    refine ⟨N, fun n hn => ?_⟩
    have hpowN : (0.85 : ℚ) ^ n ≤ 0.85 ^ N :=
      pow_le_pow_of_le_one h85 (by norm_num) hn
    have hpow0 : (0 : ℚ) ≤ (0.85 : ℚ) ^ n := by positivity
    have hbound : ∀ x : ℚ, 0 ≤ x → x ≤ m → x * 0.85 ^ n ≤ ε := by
      intro x hx0 hxm
      have hx1 : x * 0.85 ^ n ≤ m * 0.85 ^ N := by
        calc x * 0.85 ^ n ≤ m * 0.85 ^ n := by nlinarith
          _ ≤ m * 0.85 ^ N := by nlinarith
      have hx2 : m * 0.85 ^ N ≤ m * (ε / (m + 1)) := by nlinarith [hN]
      have hx3 : m * (ε / (m + 1)) ≤ ε := by
        rw [mul_div_assoc'] 
        rw [div_le_iff hm1]
        nlinarith
      linarith
    have hpow80 : (0.80 : ℚ) ^ n ≤ 0.85 ^ n :=
      pow_le_pow_left h80 (by norm_num) n
    rw [silentRun_eq s n]
    simp only
    refine ⟨hbound s.bass hb (le_trans (le_max_left _ _) (le_max_left _ _)),
      hbound s.melody hm (le_trans (le_max_right _ _) (le_max_left _ _)),
      hbound s.percussion hp (le_trans (le_max_left _ _) (le_max_right _ _)), ?_⟩
    have hbi : s.beat_intensity * 0.80 ^ n ≤ s.beat_intensity * 0.85 ^ n := by
      nlinarith
    exact le_trans hbi
      (hbound s.beat_intensity hi (le_trans (le_max_right _ _) (le_max_right _ _)))

/-- Witness for `silence_decay`: one silent frame from published values 1
is non-increasing in every component. -/
theorem silence_decay_witness :
    (silentRun ⟨1, 1, 1, 1⟩ 1).bass ≤ (silentRun ⟨1, 1, 1, 1⟩ 0).bass ∧
      (silentRun ⟨1, 1, 1, 1⟩ 1).melody ≤ (silentRun ⟨1, 1, 1, 1⟩ 0).melody ∧
      (silentRun ⟨1, 1, 1, 1⟩ 1).percussion ≤ (silentRun ⟨1, 1, 1, 1⟩ 0).percussion ∧
      (silentRun ⟨1, 1, 1, 1⟩ 1).beat_intensity ≤ (silentRun ⟨1, 1, 1, 1⟩ 0).beat_intensity :=
  (silence_decay ⟨1, 1, 1, 1⟩ (by norm_num) (by norm_num) (by norm_num) (by norm_num)).1 0

/-! ### Band weight vectors (startup of `AudioReactiveSpotifyOnly._loop`) -/

/-- `np.fft.rfftfreq(HOP, 1/sr)` with `HOP = 512`: bin `i` sits at
`i · sr / 512` Hz (only indices `0 ≤ i ≤ 256` are used). -/
def rfftFreq (sr : ℚ) (i : ℕ) : ℚ := (i : ℚ) * sr / 512

/-- Percussion weight of one frequency: the `if/elif/elif` chain (40–60,
60–100, 100–200 Hz) followed by the four independent additive ranges. -/
def wPerc (f : ℚ) : ℚ :=
  (if 40 ≤ f ∧ f < 60 then (0.5 : ℚ)
   else if 60 ≤ f ∧ f ≤ 100 then 1
   else if 100 < f ∧ f ≤ 200 then 0.4
   else 0)
  + (if 150 ≤ f ∧ f ≤ 300 then (0.6 : ℚ) else 0)
  + (if 2000 ≤ f ∧ f ≤ 4000 then (0.9 : ℚ) else 0)
  + (if 5000 ≤ f ∧ f ≤ 10000 then (1 : ℚ) else 0)
  + (if 10000 < f ∧ f ≤ 14000 then (0.4 : ℚ) else 0)

/-- Bass weight of one frequency: five independent additive ranges, then
the overlap-reduction pass (`*= 0.3` on 60–100 Hz, `*= 0.4` on
150–300 Hz). -/
def wBass (f : ℚ) : ℚ :=
  let w := (if 40 ≤ f ∧ f < 60 then (0.3 : ℚ) else 0)
    + (if 60 ≤ f ∧ f ≤ 100 then (0.5 : ℚ) else 0)
    + (if 100 < f ∧ f ≤ 250 then (1 : ℚ) else 0)
    + (if 250 < f ∧ f ≤ 500 then (0.5 : ℚ) else 0)
    + (if 500 < f ∧ f ≤ 1000 then (0.2 : ℚ) else 0)
  let w2 := if 60 ≤ f ∧ f ≤ 100 then w * 0.3 else w
  if 150 ≤ f ∧ f ≤ 300 then w2 * 0.4 else w2

/-- Melody weight of one frequency: seven independent additive ranges, then
the overlap-reduction pass (`*= 0.5` on 2000–4000 Hz). -/
def wMel (f : ℚ) : ℚ :=
  let w := (if 200 ≤ f ∧ f ≤ 500 then (0.3 : ℚ) else 0)
    + (if 500 < f ∧ f ≤ 1000 then (0.6 : ℚ) else 0)
    + (if 1000 < f ∧ f ≤ 2000 then (0.9 : ℚ) else 0)
    + (if 2000 < f ∧ f ≤ 4000 then (1 : ℚ) else 0)
    + (if 4000 < f ∧ f ≤ 6000 then (0.7 : ℚ) else 0)
    + (if 6000 < f ∧ f ≤ 8000 then (0.5 : ℚ) else 0)
    + (if 8000 < f ∧ f ≤ 10000 then (0.3 : ℚ) else 0)
  if 2000 ≤ f ∧ f ≤ 4000 then w * 0.5 else w

/-- The 257-bin percussion weight vector for sample rate `sr`. -/
def percWeights (sr : ℚ) : List ℚ := (List.range 257).map (fun i => wPerc (rfftFreq sr i))

/-- The 257-bin bass weight vector for sample rate `sr`. -/
def bassWeights (sr : ℚ) : List ℚ := (List.range 257).map (fun i => wBass (rfftFreq sr i))

/-- The 257-bin melody weight vector for sample rate `sr`. -/
def melWeights (sr : ℚ) : List ℚ := (List.range 257).map (fun i => wMel (rfftFreq sr i))

/-- The normalization step of the source: each vector is divided by its
sum plus 0.001 (the division-by-zero guard). -/
def normalizeWeights (ws : List ℚ) : List ℚ := ws.map (fun w => w / (ws.sum + 0.001))

/-- Dividing every element divides the sum. -/
lemma list_sum_div (l : List ℚ) (c : ℚ) : (l.map (fun w => w / c)).sum = l.sum / c := by
  induction l with
  | nil => simp
  | cons x xs ih => simp [ih, add_div]

/-- The sum of a normalized weight vector is `S / (S + 0.001)`. -/
lemma normalizeWeights_sum (ws : List ℚ) :
    (normalizeWeights ws).sum = ws.sum / (ws.sum + 0.001) := by
  unfold normalizeWeights
  exact list_sum_div ws (ws.sum + 0.001)

/-- Raw percussion weight sum at the standard 48 kHz loopback rate. -/
lemma percWeights_sum_48k : (percWeights 48000).sum = 917/10 := by
  with_unfolding_all rfl

/-- Raw bass weight sum at 48 kHz (the overlap pass leaves only 2.75). -/
lemma bassWeights_sum_48k : (bassWeights 48000).sum = 11/4 := by
  with_unfolding_all rfl

/-- Raw melody weight sum at 48 kHz. -/
lemma melWeights_sum_48k : (melWeights 48000).sum = 113/2 := by
  with_unfolding_all rfl

/-- Claim C6 counterexample: at the standard 48 kHz sample rate none of the
three normalized weight vectors sums to 1 within 1e-6 — the sums are
`S/(S+0.001)`, i.e. `91700/91701`, `2750/2751` and `56500/56501`, which are
off by about `1.1e-5`, `3.6e-4` and `1.8e-5` respectively. -/
theorem band_weights_sum_not_within_1e6 :
    ¬ |(normalizeWeights (percWeights 48000)).sum - 1| ≤ 1/1000000 ∧
      ¬ |(normalizeWeights (bassWeights 48000)).sum - 1| ≤ 1/1000000 ∧
      ¬ |(normalizeWeights (melWeights 48000)).sum - 1| ≤ 1/1000000 := by
  rw [normalizeWeights_sum, normalizeWeights_sum, normalizeWeights_sum,
    percWeights_sum_48k, bassWeights_sum_48k, melWeights_sum_48k]
  norm_num [abs_le]

/-- Claim C6 (amended): at 48 kHz each of the three normalized band weight
vectors sums to `S/(S+0.001)`, strictly less than 1 but within 1e-3 of 1
(percussion and melody are within 1e-4; bass, whose raw sum is only 2.75,
is not). -/
theorem band_weights_sum_near_one :
    (|(normalizeWeights (percWeights 48000)).sum - 1| ≤ 1/1000 ∧
        (normalizeWeights (percWeights 48000)).sum < 1) ∧
      (|(normalizeWeights (bassWeights 48000)).sum - 1| ≤ 1/1000 ∧
        (normalizeWeights (bassWeights 48000)).sum < 1) ∧
      (|(normalizeWeights (melWeights 48000)).sum - 1| ≤ 1/1000 ∧
        (normalizeWeights (melWeights 48000)).sum < 1) := by
  rw [normalizeWeights_sum, normalizeWeights_sum, normalizeWeights_sum,
    percWeights_sum_48k, bassWeights_sum_48k, melWeights_sum_48k]
  norm_num [abs_le]

/-! ### Onset detection fusion (per-frame, `AudioReactiveSpotifyOnly._loop`) -/

/-- The three onset kinds a frame can report (`det` in the source). -/
inductive OnsetKind where
  | kick
  | snare
  | peak
deriving DecidableEq

/-- The published onset state (`self._state`). -/
inductive PubState where
  | idle
  | kick
  | snare
  | peak
deriving DecidableEq

/-- The per-frame detection fusion (`det`, `det_i`).  The aubio onset
detectors and the peak branch internals are external inputs: `peakHit`
stands for the whole peak-branch hit condition (energy gate plus the onset
and transient disjunction) with its intensity `peakI`, while the drums
branch keeps its structure: `kick = kick_o(ka) and ke > km·0.15`,
`snare = snare_o(sa) and se > sm·0.10`, snare first, then kick only when
`det != "snare"` and `det_i < 0.8`. -/
def detFuse (modePeaks modeDrums : Bool) (peakHit : Bool) (peakI : ℚ)
    (kickO snareO : Bool) (ke km se sm : ℚ) : Option OnsetKind × ℚ :=
  let d1 : Option OnsetKind × ℚ :=
    if modePeaks = true ∧ peakHit = true then (some OnsetKind.peak, peakI) else (none, 0)
  if modeDrums = true then
    if snareO = true ∧ sm * 0.10 < se then (some OnsetKind.snare, 1)
    else if (kickO = true ∧ km * 0.15 < ke) ∧ d1.1 ≠ some OnsetKind.snare then
      (if d1.2 < 0.8 then (some OnsetKind.kick, max d1.2 0.7) else d1)
    else d1
  else d1

/-- The publish section of the frame (`APLICA TUDO`): the beat-intensity
decay (factor `CHASE_FLASH_DECAY`, hard-zeroed below 0.02 on miss frames)
and the `det` priority chain updating `(self._state, self._intensity)`. -/
def publishOnset (prevState : PubState) (prevIntensity beatPrev flashDecay : ℚ)
    (det : Option OnsetKind) (detI : ℚ) : PubState × ℚ × ℚ :=
  let beat :=
    if det = some OnsetKind.kick ∨ det = some OnsetKind.snare then detI
    else
      let b := beatPrev * flashDecay
      if b < 0.02 then 0 else b
  match det with
  | some OnsetKind.snare => (PubState.snare, 1, beat)
  | some OnsetKind.kick =>
      if prevState ≠ PubState.snare then (PubState.kick, max prevIntensity 0.7, beat)
      else (prevState, prevIntensity, beat)
  | some OnsetKind.peak =>
      if prevState ≠ PubState.snare ∧ prevState ≠ PubState.kick then
        (PubState.peak, max prevIntensity detI, beat)
      else (prevState, prevIntensity, beat)
  | none => (prevState, prevIntensity, beat)

/-- Claim C8: in a drums-enabled frame in which the snare onset fires and
passes its relative-energy gate (`se > sm·0.10`), the published state
becomes `snare` and the published intensity becomes 1, regardless of the
peak branch, the kick detector and the previous published state. -/
theorem snare_always_wins (modePeaks peakHit : Bool) (peakI : ℚ) (kickO snareO : Bool)
    (ke km se sm : ℚ) (hsn : snareO = true) (hgate : sm * 0.10 < se)
    (prevState : PubState) (prevIntensity beatPrev flashDecay : ℚ) :
    (publishOnset prevState prevIntensity beatPrev flashDecay
        (detFuse modePeaks true peakHit peakI kickO snareO ke km se sm).1
        (detFuse modePeaks true peakHit peakI kickO snareO ke km se sm).2).1 =
      PubState.snare ∧
    (publishOnset prevState prevIntensity beatPrev flashDecay
        (detFuse modePeaks true peakHit peakI kickO snareO ke km se sm).1
        (detFuse modePeaks true peakHit peakI kickO snareO ke km se sm).2).2.1 = 1 := by
  have hdet : detFuse modePeaks true peakHit peakI kickO snareO ke km se sm =
      (some OnsetKind.snare, 1) := by
    simp [detFuse, hsn, hgate]
  rw [hdet]
  exact ⟨rfl, rfl⟩

/-- Witness for `snare_always_wins`: a frame in which the peak branch fired
(intensity 0.9) and the kick detector fired and passed its gate, from a
previous `peak` state — snare still wins with intensity 1. -/
theorem snare_always_wins_witness :
    (publishOnset PubState.peak 0.5 0.3 0.85
        (detFuse true true true 0.9 true true 1 1 1 1).1
        (detFuse true true true 0.9 true true 1 1 1 1).2).1 = PubState.snare ∧
    (publishOnset PubState.peak 0.5 0.3 0.85
        (detFuse true true true 0.9 true true 1 1 1 1).1
        (detFuse true true true 0.9 true true 1 1 1 1).2).2.1 = 1 :=
  snare_always_wins true true 0.9 true true 1 1 1 1 rfl (by norm_num)
    PubState.peak 0.5 0.3 0.85
